import Mathlib

/-!
List pagination with filter: `js/script.js`

A shallow embedding of the script that paginates a list of student `<li>` elements ten per
page and filters it through a search box, followed by the properties proved about it.

The render tree is reduced to the parts the script reads or writes:

* a student list item (`Li`): the text of its `h3` sub-element, the text of its `.email`
  sub-element, the rest of its subtree, and its inline `style.display`;
* the `<ul>` captured by the closure of `getAllStudents` and the `<ul>` built by the most recent
  `performSearch`, one of which is the `.student-list` child of `.page`;
* the pagination `<div>` built by the most recent `appendPageLinks`: its `<li><a>n</a></li>`
  controls with their class names, the list captured by their click handlers, and whether the
  `<div>` is appended to `.page`.

`new RegExp(source)` is the pattern engine of the host, not code of the script: it is a parameter
`RegExp : String → Option (String → Bool)` of the embedding, `none` standing for the
`SyntaxError` thrown on a malformed pattern and `some test` for the compiled pattern with its
`test` method (no `g` or `y` flag is given, so `test` has no state).
-/

namespace ListPagination

/-! ## Data model -/

/-- A `<li>` child of a student list. `h3` and `email` are the `textContent` of the elements
found by `querySelector('h3')` and `querySelector('.email')`, `none` when the query finds
nothing; `content` is the remaining subtree, never inspected; `display` is `style.display`. -/
structure Li where
  h3 : Option String
  email : Option String
  content : String
  display : String
deriving DecidableEq

/-- An item is rendered unless its `style.display` is `"none"`. -/
def Li.visible (li : Li) : Bool := li.display != "none"

/-- An item is hidden when its `style.display` is `"none"`. -/
def Li.hidden (li : Li) : Bool := li.display == "none"

/-! ## `showPage` -/

/-- The `for` loop of `showPage`, at loop counter `i` with `rest` the items from `i` on. -/
def showPage.loop (firstIndex lastIndex : Int) : Nat → List Li → List Li
  | _, [] => []
  | i, li :: rest =>
    (if (i : Int) ≥ firstIndex ∧ (i : Int) < lastIndex then
      { li with display := "inherit" }
    else
      { li with display := "none" }) :: showPage.loop firstIndex lastIndex (i + 1) rest

/-- `showPage(list, page)`: shows items on the current page and hides all others. `page` is a
JavaScript number; the callers pass `0` and `textContent - 1`. -/
def showPage (list : List Li) (page : Int) : List Li :=
  let firstIndex := page * 10
  let lastIndex := firstIndex + 10
  showPage.loop firstIndex lastIndex 0 list

/-! ## `performSearch` -/

/-- The two failures the script can raise: `new RegExp` on a malformed pattern, and reading
`textContent` of the `null` returned by a `querySelector` that found nothing. -/
inductive Error where
  | syntaxError
  | typeError
deriving DecidableEq

/-- The `<li>` created by `performSearch` for an empty result: only a text, no `h3` and no
`.email` sub-element, no inline style. -/
def noResultsMessage : Li :=
  { h3 := none, email := none,
    content := "Your search returned 0 results. Please search again.", display := "" }

/-- The `for` loop of `performSearch`: `resultsList` holds the children appended so far.
`studentName` and `studentEmail` are both read for every item, so an item lacking either
sub-element raises; a match is deep-cloned (`cloneNode(true)`), inline style included. -/
def performSearch.loop (regex : String → Bool) : List Li → List Li → Except Error (List Li)
  | [], resultsList => .ok resultsList
  | li :: rest, resultsList =>
    match li.h3, li.email with
    | none, _ => .error .typeError
    | some _, none => .error .typeError
    | some studentName, some _ =>
      if regex studentName then
        performSearch.loop regex rest (resultsList ++ [li])
      else
        performSearch.loop regex rest resultsList

/-- `performSearch(list, searchString)`: the children of the returned `<ul>`. -/
def performSearch (RegExp : String → Option (String → Bool)) (list : List Li)
    (searchString : String) : Except Error (List Li) :=
  match RegExp searchString with
  | none => .error .syntaxError
  | some regex =>
    match performSearch.loop regex list [] with
    | .error e => .error e
    | .ok resultsList =>
      if resultsList.length = 0 then .ok (resultsList ++ [noResultsMessage])
      else .ok resultsList

/-! ## The document -/

/-- The two `<ul>` nodes a collection of items can belong to: the one captured by
`getAllStudents` at start-up, and the one built by the most recent `performSearch`. -/
inductive ListRef where
  | studentList
  | resultsList
deriving DecidableEq

/-- The element a click lands on inside a pagination control `<li><a>n</a></li>`. -/
inductive Target where
  | a
  | li
deriving DecidableEq

/-- A pagination control `<li><a href="#">text</a></li>` with the class names of its two
elements. `text` is the number written into the link. -/
structure PageLink where
  text : Int
  liClass : String
  aClass : String
deriving DecidableEq

/-- The part of the render tree the script works on. `current` is the `<ul>` that is the
`.student-list` child of `.page`; `pageList` holds the controls of the pagination `<div>` built
last, `handlerList` the list their click handlers captured, and `attached` whether that `<div>`
is a child of `.page`. -/
structure Document where
  studentList : List Li
  resultsList : List Li
  current : ListRef
  pageList : List PageLink
  handlerList : ListRef
  attached : Bool
deriving DecidableEq

/-- The children of a `<ul>`. -/
def Document.children (d : Document) : ListRef → List Li
  | .studentList => d.studentList
  | .resultsList => d.resultsList

/-- Replace the children of a `<ul>` (used for in-place updates of their style). -/
def Document.setChildren (d : Document) : ListRef → List Li → Document
  | .studentList, items => { d with studentList := items }
  | .resultsList, items => { d with resultsList := items }

/-- The items of the list on display. -/
def Document.displayed (d : Document) : List Li := d.children d.current

/-- The pagination controls present in the page: those of the pagination `<div>` when it is
attached, none otherwise. -/
def Document.controls (d : Document) : List PageLink :=
  if d.attached then d.pageList else []

/-- `allStudents()`: the closure of `getAllStudents` always returns the children of the `<ul>`
captured at start-up. -/
def allStudents : ListRef := .studentList

/-- `showPage` run on the items of a `<ul>` of the document. -/
def Document.showPage (d : Document) (list : ListRef) (page : Int) : Document :=
  d.setChildren list (ListPagination.showPage (d.children list) page)

/-! ## `appendPageLinks` and the click handler -/

/-- `Math.ceil(list.length / 10)` for a collection of `n` items. The quotient of the doubles is
correctly rounded and a non-integral `n / 10` is at least `0.1` away from an integer, so the
result is the exact ceiling, computed here on naturals. -/
def numberPages (n : Nat) : Nat := (n + 9) / 10

/-- `getPaginationDiv()`: detaches the pagination `<div>` found in the document, if any, and
returns a new one holding an empty `<ul>`. -/
def getPaginationDiv (d : Document) : Document :=
  { d with pageList := [], attached := false }

/-- `appendPageLinks(list)`: one control per page, labelled `i + 1`, whose click handler
captures `list`, is appended to the `<ul>` of the `<div>` returned by `getPaginationDiv`; that
`<div>` is appended to `.page` when `list.length > 10` and is otherwise left out of the page,
so that the only thing taking a previous pagination `<div>` off the page is
`getPaginationDiv`. -/
def appendPageLinks (d : Document) (list : ListRef) : Document :=
  let numberPages := numberPages (d.children list).length
  let d := getPaginationDiv d
  let pageList := d.pageList ++
    (List.range numberPages).map
      (fun (i : Nat) => ({ text := (i : Int) + 1, liClass := "", aClass := "" } : PageLink))
  let d := { d with pageList := pageList, handlerList := list }
  if (d.children list).length > 10 then
    { d with attached := true }
  else
    d

/-- `pageList.querySelector('.active')` followed by `if (active) active.className = ''`: the
first element in tree order (`li`, then its `a`, then the next `li`, ...) whose class is
`active` gets the empty class name. -/
def clearActive : List PageLink → List PageLink
  | [] => []
  | link :: rest =>
    if link.liClass = "active" then { link with liClass := "" } :: rest
    else if link.aClass = "active" then { link with aClass := "" } :: rest
    else link :: clearActive rest

/-- `e.target.className = "active"` on one element of a control. -/
def PageLink.setActive (link : PageLink) : Target → PageLink
  | .a => { link with aClass := "active" }
  | .li => { link with liClass := "active" }

/-- A control is marked active when its `<li>` or its `<a>` carries the class `active`. -/
def PageLink.active (link : PageLink) : Bool :=
  link.liClass == "active" || link.aClass == "active"

/-- The click handler of control `k` (zero-based position in the `<ul>`), the click landing on
`target`. A control can only be clicked while its `<div>` is in the page. Both elements of a
control have the same `textContent`. -/
def click (d : Document) (k : Nat) (target : Target) : Document :=
  if d.attached then
    match d.pageList[k]? with
    | none => d
    | some link =>
      let pageNumber := link.text - 1
      let d := d.showPage d.handlerList pageNumber
      let pageList := clearActive d.pageList
      { d with pageList := pageList.modify (fun l => l.setActive target) k }
  else d

/-! ## `paginate`, `handleSearch` and the events -/

/-- `paginate(list)`. -/
def paginate (d : Document) (list : ListRef) : Document :=
  appendPageLinks (d.showPage list 0) list

/-- `handleSearch(target)`: the search runs on `allStudents()`; the `<ul>` returned replaces the
`.student-list` child of `.page` and is paginated. Both failures of `performSearch` are raised
before the document is touched. -/
def handleSearch (RegExp : String → Option (String → Bool)) (d : Document)
    (target : String) : Except Error Document :=
  match performSearch RegExp (d.children allStudents) target with
  | .error e => .error e
  | .ok results =>
    let d := { d with resultsList := results, current := .resultsList }
    .ok (paginate d .resultsList)

/-- The document as served, before the script runs: `.student-list` has the children
`students`, no search has been made and there is no pagination `<div>`. -/
def Document.initial (students : List Li) : Document :=
  { studentList := students, resultsList := [], current := .studentList,
    pageList := [], handlerList := .studentList, attached := false }

/-- The `DOMContentLoaded` listener: `paginate(allStudents())`. -/
def domContentLoaded (students : List Li) : Document :=
  paginate (Document.initial students) allStudents

/-- The user events the script listens to after load. -/
inductive Event where
  | search (value : String)
  | click (k : Nat) (target : Target)

/-- One event handled to completion; an exception escaping `handleSearch` ends the handler and
leaves the document as it was. -/
def step (RegExp : String → Option (String → Bool)) (d : Document) : Event → Document
  | .search value =>
    match handleSearch RegExp d value with
    | .ok d1 => d1
    | .error _ => d
  | .click k target => click d k target

/-- A sequence of events handled one after the other. -/
def run (RegExp : String → Option (String → Bool)) (d : Document) (events : List Event) :
    Document :=
  events.foldl (step RegExp) d

/-- A sequence of control activations: each entry is the position of the control clicked and
the element the click landed on. -/
def clicks (d : Document) (activations : List (Nat × Target)) : Document :=
  activations.foldl (fun d c => click d c.1 c.2) d

/-! ## Vocabulary of the properties -/

/-- Whether the name of an item (the text of its `h3`) is matched by a compiled pattern. -/
def Li.nameMatches (regex : String → Bool) (li : Li) : Bool :=
  match li.h3 with
  | some studentName => regex studentName
  | none => false

/-- The record shown by an item: the item with its inline style left out. -/
def Li.record (li : Li) : Li := { li with display := "" }

/-- Number of elements of a control list (`<li>` and `<a>` alike) carrying the class
`active`. -/
def activeElements : List PageLink → Nat
  | [] => 0
  | link :: rest =>
    (if link.liClass = "active" then 1 else 0) + (if link.aClass = "active" then 1 else 0)
      + activeElements rest

/-- Control `k` is the one and only control marked active. -/
def OnlyActive (links : List PageLink) (k : Nat) : Prop :=
  k < links.length ∧ ∀ j link, links[j]? = some link → (link.active = true ↔ j = k)

/-- The visible items of `items` are exactly those at the indices of page `page`. -/
def ShowsPage (items : List Li) (page : Nat) : Prop :=
  ∀ i li, items[i]? = some li →
    (li.visible = true ↔ page * 10 ≤ i ∧ i < page * 10 + 10) ∧
    (li.hidden = true ↔ ¬ (page * 10 ≤ i ∧ i < page * 10 + 10))

/-- The state kept by a sequence of control activations after `paginate(list)` on a list of
`n > 10` items: the controls stay attached and keep their labels and their handler, the list
keeps its size, and at most one element carries the class `active`. -/
structure Paginated (list : ListRef) (n : Nat) (d : Document) : Prop where
  attached : d.attached = true
  handler : d.handlerList = list
  size : (d.children list).length = n
  text : d.pageList.map PageLink.text = (List.range (numberPages n)).map (fun (i : Nat) => (i : Int) + 1)
  active : activeElements d.pageList ≤ 1

/-! ## Concrete data for the scenarios -/

/-- A well-formed student item: both sub-elements present. -/
def Li.wellFormed (li : Li) : Bool := li.h3.isSome && li.email.isSome

/-- A student item as found in the page before the script runs. -/
def student (name email : String) : Li :=
  { h3 := some name, email := some email, content := "", display := "" }

/-- Whether `pat` occurs in `s` as a contiguous block. -/
def occursIn (pat : List Char) : List Char → Bool
  | [] => pat.isEmpty
  | c :: cs => pat.isPrefixOf (c :: cs) || occursIn pat cs

/-- The pattern engine on the fragment used by the scenarios: a pattern made of letters and
digits only has no metacharacter, so its `test` is an unanchored, case-sensitive substring
test (the empty pattern matches every string). Patterns outside the fragment are not
modelled and are rejected. -/
def literalRegExp (source : String) : Option (String → Bool) :=
  if source.toList.all Char.isAlphanum then
    some (fun s => occursIn source.toList s.toList)
  else none

/-- The names `Student1`, ..., `Student25`. -/
def rosterNames : List String :=
  ["Student1", "Student2", "Student3", "Student4", "Student5",
   "Student6", "Student7", "Student8", "Student9", "Student10",
   "Student11", "Student12", "Student13", "Student14", "Student15",
   "Student16", "Student17", "Student18", "Student19", "Student20",
   "Student21", "Student22", "Student23", "Student24", "Student25"]

/-- The list of 25 records of the scenarios. -/
def roster : List Li := rosterNames.map (fun n => student n "mail")

/-! ## Lemmas on `showPage` -/

theorem showPage.loop_length (f l : Int) (i : Nat) (xs : List Li) :
    (showPage.loop f l i xs).length = xs.length := by
  induction xs generalizing i with
  | nil => rfl
  | cons x xs ih => simp [showPage.loop, ih]

theorem showPage.loop_getElem? (f l : Int) (i : Nat) (xs : List Li) (j : Nat) :
    (showPage.loop f l i xs)[j]? =
      xs[j]?.map (fun li =>
        if ((i + j : Nat) : Int) ≥ f ∧ ((i + j : Nat) : Int) < l then
          { li with display := "inherit" }
        else { li with display := "none" }) := by
  induction xs generalizing i j with
  | nil => simp [showPage.loop]
  | cons x xs ih =>
    cases j with
    | zero => simp [showPage.loop]
    | succ j =>
      simp only [showPage.loop, List.getElem?_cons_succ, ih]
      have : i + 1 + j = i + (j + 1) := by omega
      rw [this]

theorem showPage_length (list : List Li) (page : Int) :
    (showPage list page).length = list.length :=
  showPage.loop_length _ _ _ _

theorem showPage_getElem? (list : List Li) (page : Int) (i : Nat) :
    (showPage list page)[i]? =
      list[i]?.map (fun li =>
        if page * 10 ≤ (i : Int) ∧ (i : Int) < page * 10 + 10 then
          { li with display := "inherit" }
        else { li with display := "none" }) := by
  unfold showPage
  simp only [showPage.loop_getElem?, Nat.zero_add, ge_iff_le]

theorem showPage_showsPage (list : List Li) (page : Nat) :
    ShowsPage (showPage list page) page := by
  intro i li h
  rw [showPage_getElem?] at h
  cases hsrc : list[i]? with
  | none => simp [hsrc] at h
  | some src =>
    simp only [hsrc, Option.map_some', Option.some.injEq] at h
    subst h
    by_cases hr : (page : Int) * 10 ≤ (i : Int) ∧ (i : Int) < (page : Int) * 10 + 10
    · have hn : page * 10 ≤ i ∧ i < page * 10 + 10 := by omega
      simp [hr, hn, Li.visible, Li.hidden]
    · have hn : ¬ (page * 10 ≤ i ∧ i < page * 10 + 10) := by omega
      simp only [hr, hn, Li.visible, Li.hidden, if_false]
      decide

theorem showPage_record (list : List Li) (page : Int) :
    (showPage list page).map Li.record = list.map Li.record := by
  apply List.ext_getElem?
  intro i
  simp only [List.getElem?_map, showPage_getElem?]
  cases list[i]? with
  | none => rfl
  | some src =>
    simp only [Option.map_some', Option.some.injEq]
    split <;> rfl

theorem numberPages_eq_ceil (n : Nat) : numberPages n = ⌈(n : ℚ) / 10⌉₊ := by
  unfold numberPages
  apply le_antisymm
  · by_contra h
    push_neg at h
    have h1 : (⌈(n : ℚ) / 10⌉₊ : ℚ) * 10 ≥ n := by
      have := Nat.le_ceil ((n : ℚ) / 10)
      linarith
    have h2 : n ≤ ⌈(n : ℚ) / 10⌉₊ * 10 := by exact_mod_cast h1
    omega
  · rw [Nat.ceil_le]
    have h1 : n ≤ (n + 9) / 10 * 10 := by omega
    have h2 : (n : ℚ) ≤ (((n + 9) / 10 * 10 : Nat) : ℚ) := by exact_mod_cast h1
    push_cast at h2
    rw [div_le_iff₀ (by norm_num)]
    exact_mod_cast h1

theorem showPage.loop_visible_count (a b i : Nat) (xs : List Li) :
    ((showPage.loop a b i xs).filter Li.visible).length
      = min (i + xs.length) b - max i a := by
  induction xs generalizing i with
  | nil => simp only [showPage.loop, List.filter_nil, List.length_nil]; omega
  | cons x xs ih =>
    have e := ih (i + 1)
    by_cases hr : (i : Int) ≥ (a : Int) ∧ (i : Int) < (b : Int)
    · simp only [showPage.loop, hr, and_self, if_true, List.filter_cons, Li.visible]
      simp only [bne_iff_ne, ne_eq, String.reduceEq, not_false_eq_true, if_true,
        List.length_cons, e]
      omega
    · simp only [showPage.loop, hr, if_false, List.filter_cons, Li.visible]
      simp only [bne_self_eq_false, Bool.false_eq_true, if_false, List.length_cons, e]
      omega

theorem showPage.loop_hidden_count (a b i : Nat) (xs : List Li) :
    ((showPage.loop a b i xs).filter Li.hidden).length
      = xs.length - (min (i + xs.length) b - max i a) := by
  induction xs generalizing i with
  | nil => simp [showPage.loop]
  | cons x xs ih =>
    have e := ih (i + 1)
    by_cases hr : (i : Int) ≥ (a : Int) ∧ (i : Int) < (b : Int)
    · simp only [showPage.loop, hr, and_self, if_true, List.filter_cons, Li.hidden]
      simp only [beq_iff_eq, String.reduceEq, if_false, List.length_cons, e]
      omega
    · simp only [showPage.loop, hr, if_false, List.filter_cons, Li.hidden]
      simp only [beq_self_eq_true, if_true, List.length_cons, e]
      omega

theorem showPage_eq_loop_nat (list : List Li) (p : Nat) :
    showPage list (p : Int) = showPage.loop ((p * 10 : Nat) : Int) ((p * 10 + 10 : Nat) : Int) 0 list := by
  unfold showPage
  push_cast
  rfl

theorem showPage_visible_at (list : List Li) (p i : Nat) (hi : i < list.length) :
    (∃ li, (showPage list p)[i]? = some li ∧ li.visible = true) ↔
      p * 10 ≤ i ∧ i < p * 10 + 10 := by
  have hlen : i < (showPage list p).length := by rw [showPage_length]; exact hi
  have hget : (showPage list p)[i]? = some ((showPage list p)[i]) := List.getElem?_eq_getElem hlen
  have hs := (showPage_showsPage list p i _ hget).1
  constructor
  · rintro ⟨li, h, hv⟩
    rw [hget] at h
    cases h
    exact hs.1 hv
  · intro hr
    exact ⟨_, hget, hs.2 hr⟩

/-! ## The paginator: `showPage` -/

/-- C1: `showPage(list, page)` raises nothing and keeps every record in place, changing only its
display; the record at index `i` is visible exactly when `page*10 <= i < page*10+10` and hidden
exactly otherwise; on a page past the end of the list every record is hidden. -/
theorem showPage_visible_iff (list : List Li) (page : Nat) :
    (showPage list page).length = list.length ∧
    (showPage list page).map Li.record = list.map Li.record ∧
    (∀ i, i < list.length → ∃ li, (showPage list page)[i]? = some li ∧
      (li.visible = true ↔ page * 10 ≤ i ∧ i < page * 10 + 10) ∧
      (li.hidden = true ↔ ¬ (page * 10 ≤ i ∧ i < page * 10 + 10))) ∧
    (list.length ≤ page * 10 → ∀ li ∈ showPage list page, li.hidden = true) := by
  refine ⟨showPage_length _ _, showPage_record _ _, ?_, ?_⟩
  · intro i hi
    have hlen : i < (showPage list page).length := by rw [showPage_length]; exact hi
    have hget : (showPage list page)[i]? = some ((showPage list page)[i]) :=
      List.getElem?_eq_getElem hlen
    exact ⟨_, hget, showPage_showsPage list page i _ hget⟩
  · intro hpast li hmem
    obtain ⟨i, hlt, rfl⟩ := List.getElem_of_mem hmem
    have hget : (showPage list page)[i]? = some ((showPage list page)[i]) :=
      List.getElem?_eq_getElem hlt
    have hi : i < list.length := by rw [showPage_length] at hlt; exact hlt
    exact (showPage_showsPage list page i _ hget).2.2 (by omega)

/-- C1 at the roster of 25: on page 2 the record at index 20 is visible and the one at index 19
hidden, and on page 3, past the end, everything is hidden. -/
theorem showPage_visible_iff_witness :
    (∃ li, (showPage roster 2)[20]? = some li ∧ li.visible = true) ∧
    (∃ li, (showPage roster 2)[19]? = some li ∧ li.hidden = true) ∧
    (∀ li ∈ showPage roster 3, li.hidden = true) :=
  ⟨(let ⟨li, h, hv, _⟩ := (showPage_visible_iff roster 2).2.2.1 20 (by decide)
    ⟨li, h, hv.2 (by decide)⟩),
   (let ⟨li, h, _, hh⟩ := (showPage_visible_iff roster 2).2.2.1 19 (by decide)
    ⟨li, h, hh.2 (by decide)⟩),
   (showPage_visible_iff roster 3).2.2.2 (by decide)⟩

/-- C9: on a page `p` below `ceil(n/10)` exactly `min(10, n - p*10)` records are visible, on any
later page none is, and in both cases all the remaining records of the list are hidden. -/
theorem showPage_visible_count (list : List Li) (p : Nat) :
    (p < numberPages list.length →
      ((showPage list p).filter Li.visible).length = min 10 (list.length - p * 10)) ∧
    (numberPages list.length ≤ p → ((showPage list p).filter Li.visible).length = 0) ∧
    ((showPage list p).filter Li.hidden).length
      = list.length - ((showPage list p).filter Li.visible).length ∧
    numberPages list.length = ⌈(list.length : ℚ) / 10⌉₊ := by
  have hv := showPage.loop_visible_count (p * 10) (p * 10 + 10) 0 list
  have hh := showPage.loop_hidden_count (p * 10) (p * 10 + 10) 0 list
  rw [← showPage_eq_loop_nat] at hv hh
  refine ⟨?_, ?_, ?_, numberPages_eq_ceil _⟩
  · intro hp
    unfold numberPages at hp
    rw [hv]
    omega
  · intro hp
    unfold numberPages at hp
    rw [hv]
    omega
  · rw [hh, hv]

/-- C9 at 25 records: 10, 10 and 5 visible records on pages 0, 1 and 2, none on page 3. -/
theorem showPage_visible_count_witness :
    ((showPage roster 0).filter Li.visible).length = 10 ∧
    ((showPage roster 1).filter Li.visible).length = 10 ∧
    ((showPage roster 2).filter Li.visible).length = 5 ∧
    ((showPage roster 3).filter Li.visible).length = 0 ∧
    ((showPage roster 2).filter Li.hidden).length = 20 :=
  ⟨(showPage_visible_count roster 0).1 (by decide),
   (showPage_visible_count roster 1).1 (by decide),
   (showPage_visible_count roster 2).1 (by decide),
   (showPage_visible_count roster 3).2.1 (by decide),
   by decide⟩

/-- C10: the pages offered by the controls split the list: record `i` is made visible by
`showPage(list, p)` for a page `p` below `ceil(n/10)` exactly when `p = floor(i/10)`, so one and
only one built control reaches it. -/
theorem pages_cover_list_once (list : List Li) (i : Nat) (hi : i < list.length) :
    (∀ p : Nat, (p < numberPages list.length ∧
        ∃ li, (showPage list p)[i]? = some li ∧ li.visible = true) ↔ p = i / 10) ∧
    (∃! p : Nat, p < numberPages list.length ∧
        ∃ li, (showPage list p)[i]? = some li ∧ li.visible = true) := by
  have key : ∀ p : Nat, (p < numberPages list.length ∧
      ∃ li, (showPage list p)[i]? = some li ∧ li.visible = true) ↔ p = i / 10 := by
    intro p
    rw [showPage_visible_at list p i hi]
    unfold numberPages
    omega
  refine ⟨key, i / 10, (key _).2 rfl, ?_⟩
  intro q hq
  exact (key q).1 hq

/-- C10 at the roster of 25: the record at index 24 is shown by page 2 and by no other page. -/
theorem pages_cover_list_once_witness :
    (2 < numberPages roster.length ∧
      ∃ li, (showPage roster 2)[24]? = some li ∧ li.visible = true) ∧
    ¬ (1 < numberPages roster.length ∧
      ∃ li, (showPage roster 1)[24]? = some li ∧ li.visible = true) :=
  ⟨((pages_cover_list_once roster 24 (by decide)).1 2).2 (by decide),
   fun h => absurd (((pages_cover_list_once roster 24 (by decide)).1 1).1 h) (by decide)⟩

/-! ## Lemmas on the document and the controls -/

@[simp] theorem Document.children_setChildren (d : Document) (r : ListRef) (items : List Li) :
    (d.setChildren r items).children r = items := by
  cases r <;> rfl

@[simp] theorem Document.pageList_setChildren (d : Document) (r : ListRef) (items : List Li) :
    (d.setChildren r items).pageList = d.pageList := by
  cases r <;> rfl

@[simp] theorem Document.attached_setChildren (d : Document) (r : ListRef) (items : List Li) :
    (d.setChildren r items).attached = d.attached := by
  cases r <;> rfl

@[simp] theorem Document.handlerList_setChildren (d : Document) (r : ListRef) (items : List Li) :
    (d.setChildren r items).handlerList = d.handlerList := by
  cases r <;> rfl

@[simp] theorem Document.current_setChildren (d : Document) (r : ListRef) (items : List Li) :
    (d.setChildren r items).current = d.current := by
  cases r <;> rfl

theorem paginate_pageList (d : Document) (list : ListRef) :
    (paginate d list).pageList =
      (List.range (numberPages (d.children list).length)).map
        (fun (i : Nat) => ({ text := (i : Int) + 1, liClass := "", aClass := "" } : PageLink)) := by
  simp only [paginate, appendPageLinks, getPaginationDiv, Document.showPage]
  cases list <;>
    simp only [Document.setChildren, Document.children, showPage_length, List.nil_append] <;>
    split <;> rfl

theorem paginate_attached (d : Document) (list : ListRef) :
    (paginate d list).attached = decide (10 < (d.children list).length) := by
  simp only [paginate, appendPageLinks, getPaginationDiv, Document.showPage]
  cases list <;>
    simp only [Document.setChildren, Document.children, showPage_length, List.nil_append] <;>
    split <;> simp [*]

theorem paginate_handlerList (d : Document) (list : ListRef) :
    (paginate d list).handlerList = list := by
  simp only [paginate, appendPageLinks]
  split <;> rfl

theorem paginate_current (d : Document) (list : ListRef) :
    (paginate d list).current = d.current := by
  simp only [paginate, appendPageLinks]
  split <;> cases list <;> rfl

theorem paginate_children (d : Document) (list : ListRef) :
    (paginate d list).children list = showPage (d.children list) 0 := by
  simp only [paginate, appendPageLinks]
  split <;> cases list <;> rfl

theorem paginate_studentList (d : Document) :
    (paginate d .resultsList).studentList = d.studentList := by
  simp only [paginate, appendPageLinks]
  split <;> rfl

theorem paginate_resultsList (d : Document) :
    (paginate d .studentList).resultsList = d.resultsList := by
  simp only [paginate, appendPageLinks]
  split <;> rfl

theorem activeElements_fresh (n : Nat) :
    activeElements ((List.range n).map
      (fun (i : Nat) => ({ text := (i : Int) + 1, liClass := "", aClass := "" } : PageLink))) = 0 := by
  have h : ∀ (xs : List Nat), activeElements (xs.map
      (fun (i : Nat) => ({ text := (i : Int) + 1, liClass := "", aClass := "" } : PageLink))) = 0 := by
    intro xs
    induction xs with
    | nil => rfl
    | cons x xs ih => simp [activeElements, ih]
  exact h _

theorem activeElements_eq_zero (links : List PageLink) (h : activeElements links = 0) :
    ∀ link ∈ links, link.active = false := by
  induction links with
  | nil => intro link hm; cases hm
  | cons l rest ih =>
    simp only [activeElements] at h
    intro link hm
    rcases List.mem_cons.1 hm with rfl | hm
    · by_cases h1 : link.liClass = "active"
      · simp [h1] at h
      · by_cases h2 : link.aClass = "active"
        · simp [h2] at h
        · simp [PageLink.active, h1, h2]
    · exact ih (by omega) link hm

theorem clearActive_text (links : List PageLink) :
    (clearActive links).map PageLink.text = links.map PageLink.text := by
  induction links with
  | nil => rfl
  | cons l rest ih =>
    unfold clearActive
    split
    · rfl
    · split
      · rfl
      · simp [ih]

theorem activeElements_clearActive (links : List PageLink) :
    activeElements (clearActive links) = activeElements links - 1 := by
  induction links with
  | nil => rfl
  | cons l rest ih =>
    unfold clearActive
    by_cases h1 : l.liClass = "active"
    · simp only [h1, if_true, activeElements]
      simp only [String.reduceEq, if_false]
      omega
    · by_cases h2 : l.aClass = "active"
      · simp only [h1, h2, if_true, if_false, activeElements]
        simp only [String.reduceEq, if_false]
        omega
      · simp only [h1, h2, if_false, activeElements, ih]
        omega

theorem modify_setActive_text (target : Target) (links : List PageLink) (k : Nat) :
    (links.modify (fun l => l.setActive target) k).map PageLink.text
      = links.map PageLink.text := by
  apply List.ext_getElem?
  intro j
  simp only [List.getElem?_map, List.getElem?_modify]
  cases links[j]? with
  | none => rfl
  | some l =>
    simp only [Option.map_some', Option.some.injEq]
    split
    · cases target <;> rfl
    · rfl

theorem PageLink.active_setActive (link : PageLink) (target : Target) :
    (link.setActive target).active = true := by
  cases target <;> simp [PageLink.setActive, PageLink.active]

theorem activeElements_modify (target : Target) (links : List PageLink) (k : Nat)
    (h : activeElements links = 0) (hk : k < links.length) :
    activeElements (links.modify (fun l => l.setActive target) k) = 1 := by
  induction links generalizing k with
  | nil => simp at hk
  | cons l rest ih =>
    simp only [activeElements] at h
    have h1 : l.liClass ≠ "active" := by
      intro e; simp [e] at h
    have h2 : l.aClass ≠ "active" := by
      intro e; simp [e] at h
    have h3 : activeElements rest = 0 := by omega
    cases k with
    | zero =>
      rw [List.modify_zero_cons]
      cases target <;> simp [activeElements, PageLink.setActive, h1, h2, h3]
    | succ k =>
      have hk2 : k < rest.length := by simpa using hk
      rw [List.modify_succ_cons]
      simp [activeElements, h1, h2, ih k h3 hk2]

theorem onlyActive_modify (target : Target) (links : List PageLink) (k : Nat)
    (h : activeElements links = 0) (hk : k < links.length) :
    OnlyActive (links.modify (fun l => l.setActive target) k) k := by
  refine ⟨by simpa using hk, ?_⟩
  intro j link hj
  rw [List.getElem?_modify] at hj
  cases hl : links[j]? with
  | none => simp [hl] at hj
  | some l =>
    simp only [hl, Option.map_eq_map, Option.map_some', Option.some.injEq] at hj
    have hoff : l.active = false :=
      activeElements_eq_zero links h l (List.getElem?_mem hl)
    by_cases e : k = j
    · simp only [e, if_true] at hj
      subst hj
      simp [PageLink.active_setActive, e]
    · simp only [e, if_false] at hj
      subst hj
      simp only [hoff, Bool.false_eq_true, false_iff]
      exact fun e2 => e e2.symm

theorem Paginated.pageList_length {list : ListRef} {n : Nat} {d : Document}
    (h : Paginated list n d) : d.pageList.length = numberPages n := by
  have := congrArg List.length h.text
  simpa using this

theorem Paginated.getElem? {list : ListRef} {n : Nat} {d : Document}
    (h : Paginated list n d) (k : Nat) (hk : k < numberPages n) :
    ∃ link, d.pageList[k]? = some link ∧ link.text = (k : Int) + 1 := by
  have hlen : k < d.pageList.length := by rw [h.pageList_length]; exact hk
  refine ⟨d.pageList[k], List.getElem?_eq_getElem hlen, ?_⟩
  have e := congrArg (fun l => l[k]?) h.text
  simp only [List.getElem?_map, List.getElem?_eq_getElem hlen, Option.map_some',
    List.getElem?_range hk] at e
  exact Option.some.inj e

theorem paginate_paginated (d : Document) (list : ListRef)
    (h : 10 < (d.children list).length) :
    Paginated list (d.children list).length (paginate d list) where
  attached := by rw [paginate_attached]; simpa using h
  handler := paginate_handlerList d list
  size := by rw [paginate_children, showPage_length]
  text := by rw [paginate_pageList]; simp
  active := by rw [paginate_pageList, activeElements_fresh]; omega

theorem click_out_of_range {list : ListRef} {n : Nat} {d : Document}
    (h : Paginated list n d) (k : Nat) (target : Target) (hk : numberPages n ≤ k) :
    click d k target = d := by
  have hnone : d.pageList[k]? = none := by
    apply List.getElem?_eq_none
    rw [h.pageList_length]; exact hk
  simp [click, hnone]

theorem click_spec {list : ListRef} {n : Nat} {d : Document}
    (h : Paginated list n d) (k : Nat) (target : Target) (hk : k < numberPages n) :
    Paginated list n (click d k target) ∧
    OnlyActive (click d k target).pageList k ∧
    (click d k target).children list = showPage (d.children list) k := by
  obtain ⟨link, hget, htext⟩ := h.getElem? k hk
  have hclear : activeElements (clearActive d.pageList) = 0 := by
    rw [activeElements_clearActive]; have := h.active; omega
  have hklen : k < (clearActive d.pageList).length := by
    have e := congrArg List.length (clearActive_text d.pageList)
    simp only [List.length_map] at e
    rw [e, h.pageList_length]; exact hk
  have hpage : link.text - 1 = (k : Int) := by omega
  have hc : click d k target =
      { d.showPage list k with
        pageList := (clearActive d.pageList).modify (fun l => l.setActive target) k } := by
    simp [click, h.attached, hget, h.handler, hpage, Document.showPage]
  have hchildren : (click d k target).children list = showPage (d.children list) k := by
    rw [hc]
    cases list <;> rfl
  refine ⟨⟨?_, ?_, ?_, ?_, ?_⟩, ?_, hchildren⟩
  · rw [hc]; simpa [Document.showPage] using h.attached
  · rw [hc]; simpa [Document.showPage] using h.handler
  · rw [hchildren, showPage_length]; exact h.size
  · rw [hc]
    simp only [modify_setActive_text, clearActive_text]
    exact h.text
  · rw [hc]
    simp only [activeElements_modify target _ k hclear hklen]
    omega
  · rw [hc]
    exact onlyActive_modify target _ k hclear hklen

theorem clicks_paginated {list : ListRef} {n : Nat} (activations : List (Nat × Target)) :
    ∀ {d : Document}, Paginated list n d →
      Paginated list n (clicks d activations) ∧
      ((clicks d activations).children list).map Li.record
        = (d.children list).map Li.record := by
  induction activations with
  | nil => intro d h; exact ⟨h, rfl⟩
  | cons c rest ih =>
    intro d h
    have hstep : Paginated list n (click d c.1 c.2) ∧
        ((click d c.1 c.2).children list).map Li.record = (d.children list).map Li.record := by
      by_cases hk : c.1 < numberPages n
      · obtain ⟨hp, _, hch⟩ := click_spec h c.1 c.2 hk
        exact ⟨hp, by rw [hch, showPage_record]⟩
      · rw [click_out_of_range h c.1 c.2 (by omega)]
        exact ⟨h, rfl⟩
    obtain ⟨hp, hrec⟩ := ih hstep.1
    exact ⟨hp, by rw [← hstep.2]; exact hrec⟩

/-! ## The paginator: controls -/

/-- C3: after `paginate(list)` on `n` records the page shows `ceil(n/10)` controls labelled
`1, 2, ..., ceil(n/10)` in that order when `n > 10`, and no control at all when `n <= 10`. -/
theorem paginate_controls (d : Document) (list : ListRef) :
    (10 < (d.children list).length →
      (paginate d list).controls.length = numberPages (d.children list).length ∧
      (paginate d list).controls.map PageLink.text
        = (List.range (numberPages (d.children list).length)).map
            (fun (i : Nat) => (i : Int) + 1)) ∧
    ((d.children list).length ≤ 10 → (paginate d list).controls = []) ∧
    numberPages (d.children list).length = ⌈((d.children list).length : ℚ) / 10⌉₊ := by
  refine ⟨?_, ?_, numberPages_eq_ceil _⟩
  · intro h
    have hp := paginate_paginated d list h
    simp only [Document.controls, hp.attached, if_true]
    exact ⟨hp.pageList_length, hp.text⟩
  · intro h
    have hatt : (paginate d list).attached = false := by
      rw [paginate_attached]; simpa using h
    simp [Document.controls, hatt]

/-- C3 on load: 25 records give the 3 controls `1, 2, 3`; 10 records and 0 records give none. -/
theorem paginate_controls_witness :
    (domContentLoaded roster).controls.length = 3 ∧
    (domContentLoaded roster).controls.map PageLink.text = [1, 2, 3] ∧
    (domContentLoaded (roster.take 10)).controls = [] ∧
    (domContentLoaded []).controls = [] :=
  ⟨((paginate_controls (Document.initial roster) allStudents).1 (by decide)).1,
   ((paginate_controls (Document.initial roster) allStudents).1 (by decide)).2,
   (paginate_controls (Document.initial (roster.take 10)) allStudents).2.1 (by decide),
   (paginate_controls (Document.initial []) allStudents).2.1 (by decide)⟩

/-- C4: after `paginate(list)` on more than 10 records and any sequence of control activations,
activating control `k` leaves control `k` as the only control marked active, leaves visible
exactly the records at the indices `[k*10, k*10+10)` with all others hidden, and keeps the
records and the controls of the list as they were. -/
theorem click_selects_page (d : Document) (list : ListRef)
    (h : 10 < (d.children list).length) (activations : List (Nat × Target))
    (k : Nat) (target : Target) (hk : k < numberPages (d.children list).length) :
    OnlyActive (click (clicks (paginate d list) activations) k target).controls k ∧
    (click (clicks (paginate d list) activations) k target).controls.length
      = numberPages (d.children list).length ∧
    ShowsPage ((click (clicks (paginate d list) activations) k target).children list) k ∧
    ((click (clicks (paginate d list) activations) k target).children list).map Li.record
      = (d.children list).map Li.record := by
  obtain ⟨hp, hrec⟩ := clicks_paginated activations (paginate_paginated d list h)
  obtain ⟨hq, hact, hch⟩ := click_spec hp k target hk
  have hctl : (click (clicks (paginate d list) activations) k target).controls
      = (click (clicks (paginate d list) activations) k target).pageList := by
    simp [Document.controls, hq.attached]
  refine ⟨by rw [hctl]; exact hact, by rw [hctl]; exact hq.pageList_length, ?_, ?_⟩
  · rw [hch]; exact showPage_showsPage _ k
  · rw [hch, showPage_record, hrec, paginate_children, showPage_record]

/-- C4 at the roster of 25: after a click on the second control, selecting the control labelled
3 marks it alone active and shows `Student21` to `Student25` only. -/
theorem click_selects_page_witness :
    OnlyActive (click (clicks (domContentLoaded roster) [(1, Target.li)]) 2 Target.a).controls 2 ∧
    ((click (clicks (domContentLoaded roster) [(1, Target.li)]) 2 Target.a).displayed.filter
        Li.visible).map Li.h3
      = [some "Student21", some "Student22", some "Student23", some "Student24",
         some "Student25"] :=
  ⟨(click_selects_page (Document.initial roster) allStudents (by decide) [(1, Target.li)] 2
      Target.a (by decide)).1,
   by decide⟩

/-- C5, as the script behaves: after `paginate(list)` on more than 10 records the page shown
is page 0, so exactly the records at indices 0 to 9 are visible, and `ceil(n/10)` controls are
shown none of which is marked active. -/
theorem paginate_no_control_active (d : Document) (list : ListRef)
    (h : 10 < (d.children list).length) :
    (paginate d list).controls.length = numberPages (d.children list).length ∧
    (∀ link ∈ (paginate d list).controls, link.active = false) ∧
    ShowsPage ((paginate d list).children list) 0 := by
  have hp := paginate_paginated d list h
  have hctl : (paginate d list).controls = (paginate d list).pageList := by
    simp [Document.controls, hp.attached]
  refine ⟨by rw [hctl]; exact hp.pageList_length, ?_, ?_⟩
  · rw [hctl]
    apply activeElements_eq_zero
    rw [paginate_pageList, activeElements_fresh]
  · rw [paginate_children]
    exact showPage_showsPage _ 0

/-- C5 on load of the roster of 25: three controls, none active, `Student1` to `Student10`
shown. -/
theorem paginate_no_control_active_witness :
    (domContentLoaded roster).controls.length = 3 ∧
    (∀ link ∈ (domContentLoaded roster).controls, link.active = false) ∧
    ShowsPage (domContentLoaded roster).displayed 0 :=
  paginate_no_control_active (Document.initial roster) allStudents (by decide)

/-- C5 as stated fails: right after `paginate` on the roster of 25 records control 0 is not
marked active (no control is). -/
theorem paginate_first_control_not_active :
    10 < roster.length ∧ ¬ OnlyActive (domContentLoaded roster).controls 0 ∧
    (domContentLoaded roster).controls.map PageLink.active = [false, false, false] := by
  refine ⟨by decide, ?_, by decide⟩
  rintro ⟨_, hall⟩
  have := (hall 0 { text := 1, liClass := "", aClass := "" } (by decide)).2 rfl
  revert this
  decide

/-! ## Lemmas on `performSearch` -/

theorem Li.wellFormed_iff (li : Li) :
    li.wellFormed = true ↔ ∃ name email, li.h3 = some name ∧ li.email = some email := by
  cases h1 : li.h3 <;> cases h2 : li.email <;> simp [Li.wellFormed, h1, h2]

theorem performSearch.loop_eq (regex : String → Bool) (xs : List Li)
    (hwf : ∀ li ∈ xs, li.wellFormed = true) (acc : List Li) :
    performSearch.loop regex xs acc = .ok (acc ++ xs.filter (Li.nameMatches regex)) := by
  induction xs generalizing acc with
  | nil => simp [performSearch.loop]
  | cons x xs ih =>
    obtain ⟨name, email, h1, h2⟩ := (Li.wellFormed_iff x).1 (hwf x (List.mem_cons_self _ _))
    have hrest : ∀ li ∈ xs, li.wellFormed = true :=
      fun li hm => hwf li (List.mem_cons_of_mem _ hm)
    by_cases hm : regex name = true
    · have hx : x.nameMatches regex = true := by simp [Li.nameMatches, h1, hm]
      simp only [performSearch.loop, h1, h2, hm, if_true, ih hrest, List.filter_cons, hx,
        List.append_assoc, List.singleton_append]
    · have hx : x.nameMatches regex = false := by simp [Li.nameMatches, h1, hm]
      simp only [performSearch.loop, h1, h2, hm, if_false, ih hrest, List.filter_cons, hx,
        Bool.false_eq_true]

theorem performSearch_eq (RegExp : String → Option (String → Bool)) (list : List Li)
    (q : String) (regex : String → Bool) (hq : RegExp q = some regex)
    (hwf : ∀ li ∈ list, li.wellFormed = true) :
    performSearch RegExp list q =
      .ok (if (list.filter (Li.nameMatches regex)).length = 0 then [noResultsMessage]
           else list.filter (Li.nameMatches regex)) := by
  simp only [performSearch, hq, performSearch.loop_eq regex list hwf, List.nil_append]
  split <;> simp_all

theorem occursIn_nil (cs : List Char) : occursIn [] cs = true := by
  cases cs <;> simp [occursIn]

/-! ## The search filter -/

/-- C2: when the names of some records match a well-formed query, `performSearch(list, q)`
returns exactly the records of `list` whose name matches, each an unchanged copy, in their
original relative order; only the name is looked at, so a record whose email matches while its
name does not is left out. -/
theorem performSearch_matches (RegExp : String → Option (String → Bool)) (list : List Li)
    (q : String) (regex : String → Bool) (hq : RegExp q = some regex)
    (hwf : ∀ li ∈ list, li.wellFormed = true)
    (hm : ∃ li ∈ list, li.nameMatches regex = true) :
    ∃ results, performSearch RegExp list q = .ok results ∧
      results = list.filter (Li.nameMatches regex) ∧
      results.Sublist list ∧
      (∀ li, li ∈ results ↔ li ∈ list ∧ ∃ name, li.h3 = some name ∧ regex name = true) ∧
      (∀ li ∈ list, ∀ name email, li.h3 = some name → li.email = some email →
        regex name = false → regex email = true → li ∉ results) := by
  refine ⟨_, ?_, rfl, List.filter_sublist _, ?_, ?_⟩
  · rw [performSearch_eq RegExp list q regex hq hwf]
    obtain ⟨li, hmem, hli⟩ := hm
    have : li ∈ list.filter (Li.nameMatches regex) := List.mem_filter.2 ⟨hmem, hli⟩
    have hpos : (list.filter (Li.nameMatches regex)).length ≠ 0 := by
      intro h0
      rw [List.length_eq_zero] at h0
      rw [h0] at this
      cases this
    simp [hpos]
  · intro li
    rw [List.mem_filter]
    constructor
    · rintro ⟨hmem, hli⟩
      refine ⟨hmem, ?_⟩
      cases h3 : li.h3 with
      | none => simp [Li.nameMatches, h3] at hli
      | some name => exact ⟨name, rfl, by simpa [Li.nameMatches, h3] using hli⟩
    · rintro ⟨hmem, name, h3, hr⟩
      exact ⟨hmem, by simp [Li.nameMatches, h3, hr]⟩
  · intro li _ name email h3 _ hname _ hin
    have := (List.mem_filter.1 hin).2
    simp [Li.nameMatches, h3, hname] at this

/-- C2 at the roster of 25 with the query `Student1`: the 11 records `Student1`,
`Student10`, ..., `Student19`; and a record whose email alone contains the query is dropped. -/
theorem performSearch_matches_witness :
    (∃ results, performSearch literalRegExp roster "Student1" = .ok results ∧
      results.length = 11 ∧
      results.map Li.h3 = [some "Student1", some "Student10", some "Student11",
        some "Student12", some "Student13", some "Student14", some "Student15",
        some "Student16", some "Student17", some "Student18", some "Student19"]) ∧
    (∃ results, performSearch literalRegExp
        [student "Ann" "Bob", student "Bob" "Ann"] "Bob" = .ok results ∧
      results = [student "Bob" "Ann"]) :=
  ⟨(let ⟨r, h, e, _⟩ := performSearch_matches literalRegExp roster "Student1"
      (fun s => occursIn "Student1".toList s.toList) rfl (by decide) (by decide)
    ⟨r, h, by rw [e]; decide, by rw [e]; decide⟩),
   (let ⟨r, h, e, _⟩ := performSearch_matches literalRegExp
      [student "Ann" "Bob", student "Bob" "Ann"] "Bob"
      (fun s => occursIn "Bob".toList s.toList) rfl (by decide) (by decide)
    ⟨r, h, by rw [e]; decide⟩)⟩

/-- C6, as the script behaves: the empty pattern matching every string, `performSearch(list, "")`
returns `list` itself (same entries, same order, same content) when `list` is not empty, and the
single no-results entry when `list` is empty. -/
theorem performSearch_empty_query (RegExp : String → Option (String → Bool)) (list : List Li)
    (regex : String → Bool) (hq : RegExp "" = some regex) (hall : ∀ s, regex s = true)
    (hwf : ∀ li ∈ list, li.wellFormed = true) :
    (list ≠ [] → performSearch RegExp list "" = .ok list) ∧
    (list = [] → performSearch RegExp list "" = .ok [noResultsMessage]) := by
  have hfilter : list.filter (Li.nameMatches regex) = list := by
    rw [List.filter_eq_self]
    intro li hmem
    obtain ⟨name, _, h3, _⟩ := (Li.wellFormed_iff li).1 (hwf li hmem)
    simp [Li.nameMatches, h3, hall]
  rw [performSearch_eq RegExp list "" regex hq hwf, hfilter]
  constructor
  · intro hne
    have : list.length ≠ 0 := fun h0 => hne (List.length_eq_zero.1 h0)
    simp [this]
  · intro he
    simp [he]

/-- C6 at the roster of 25: the empty query gives the roster back. -/
theorem performSearch_empty_query_witness :
    performSearch literalRegExp roster "" = .ok roster :=
  (performSearch_empty_query literalRegExp roster (fun s => occursIn "".toList s.toList) rfl
    (fun s => occursIn_nil s.toList) (by decide)).1 (by decide)

/-- C6 as stated fails on the empty list: the empty query returns one entry, the no-results
message, where the list has none. -/
theorem performSearch_empty_query_empty_list :
    performSearch literalRegExp [] "" = .ok [noResultsMessage] ∧
    performSearch literalRegExp [] "" ≠ .ok [] := by
  constructor
  · rfl
  · intro h
    have h2 : (Except.ok [noResultsMessage] : Except Error (List Li)) = .ok [] := h
    cases h2

/-! ## Lemmas on `handleSearch` and the events -/

theorem handleSearch_eq (RegExp : String → Option (String → Bool)) (d : Document) (q : String)
    (results : List Li) (h : performSearch RegExp d.studentList q = .ok results) :
    handleSearch RegExp d q = .ok
      { studentList := d.studentList
        resultsList := showPage results 0
        current := .resultsList
        pageList := (List.range (numberPages results.length)).map
          (fun (i : Nat) => ({ text := (i : Int) + 1, liClass := "", aClass := "" } : PageLink))
        handlerList := .resultsList
        attached := decide (10 < results.length) } := by
  have hc : d.children allStudents = d.studentList := rfl
  unfold handleSearch
  rw [hc, h]
  simp only [paginate, appendPageLinks, getPaginationDiv, Document.showPage,
    Document.setChildren, Document.children, showPage_length, List.nil_append]
  split <;> simp [*]

theorem click_studentList_record (d : Document) (k : Nat) (target : Target) :
    (click d k target).studentList.map Li.record = d.studentList.map Li.record := by
  unfold click
  split
  · split
    · rfl
    · cases hh : d.handlerList <;>
        simp [Document.showPage, Document.setChildren, Document.children, showPage_record]
  · rfl

theorem handleSearch_studentList (RegExp : String → Option (String → Bool)) (d d1 : Document)
    (q : String) (h : handleSearch RegExp d q = .ok d1) : d1.studentList = d.studentList := by
  unfold handleSearch at h
  split at h
  · cases h
  · cases h
    exact paginate_studentList _

theorem step_studentList_record (RegExp : String → Option (String → Bool)) (d : Document)
    (e : Event) : (step RegExp d e).studentList.map Li.record = d.studentList.map Li.record := by
  cases e with
  | search value =>
    simp only [step]
    split
    · next d1 h => rw [handleSearch_studentList RegExp d d1 value h]
    · rfl
  | click k target => exact click_studentList_record d k target

theorem run_studentList_record (RegExp : String → Option (String → Bool))
    (events : List Event) : ∀ (d : Document),
      (run RegExp d events).studentList.map Li.record = d.studentList.map Li.record := by
  induction events with
  | nil => intro d; rfl
  | cons e rest ih =>
    intro d
    have h1 := ih (step RegExp d e)
    have h2 := step_studentList_record RegExp d e
    simp only [run, List.foldl_cons] at h1 ⊢
    rw [h1, h2]

theorem domContentLoaded_studentList_record (students : List Li) :
    (domContentLoaded students).studentList.map Li.record = students.map Li.record := by
  have : (domContentLoaded students).studentList = showPage students 0 :=
    paginate_children (Document.initial students) .studentList
  rw [this, showPage_record]

theorem showPage_congr (xs ys : List Li) (page : Int)
    (h : xs.map Li.record = ys.map Li.record) : showPage xs page = showPage ys page := by
  apply List.ext_getElem?
  intro i
  have hi := congrArg (fun l => l[i]?) h
  simp only [List.getElem?_map] at hi
  simp only [showPage_getElem?]
  cases hx : xs[i]? <;> cases hy : ys[i]? <;> simp only [hx, hy] at hi
  · rfl
  · cases hi
  · cases hi
  · simp only [Option.map_some', Option.some.injEq, Li.record, Li.mk.injEq] at hi
    obtain ⟨h1, h2, h3, _⟩ := hi
    simp only [Option.map_some', h1, h2, h3]

theorem wellFormed_of_record (xs ys : List Li) (h : xs.map Li.record = ys.map Li.record)
    (hwf : ∀ li ∈ ys, li.wellFormed = true) : ∀ li ∈ xs, li.wellFormed = true := by
  intro li hmem
  have h1 : li.record ∈ ys.map Li.record := by
    rw [← h]; exact List.mem_map_of_mem _ hmem
  obtain ⟨l2, hmem2, he⟩ := List.mem_map.1 h1
  have hw := hwf l2 hmem2
  have e1 : l2.h3 = li.h3 := congrArg (fun l => l.h3) he
  have e2 : l2.email = li.email := congrArg (fun l => l.email) he
  simpa [Li.wellFormed, e1, e2] using hw

theorem filter_record (regex : String → Bool) (xs : List Li) :
    (xs.filter (Li.nameMatches regex)).map Li.record
      = (xs.map Li.record).filter (Li.nameMatches regex) := by
  induction xs with
  | nil => rfl
  | cons x xs ih =>
    have hx : Li.nameMatches regex x.record = Li.nameMatches regex x := rfl
    by_cases hm : Li.nameMatches regex x = true
    · simp [List.filter_cons, hx, hm, ih]
    · simp [List.filter_cons, hx, hm, ih]

theorem performSearch_congr (RegExp : String → Option (String → Bool)) (xs ys : List Li)
    (q : String) (regex : String → Bool) (hq : RegExp q = some regex)
    (h : xs.map Li.record = ys.map Li.record) (hwf : ∀ li ∈ ys, li.wellFormed = true) :
    ∃ rx ry, performSearch RegExp xs q = .ok rx ∧ performSearch RegExp ys q = .ok ry ∧
      rx.map Li.record = ry.map Li.record := by
  have hwfx := wellFormed_of_record xs ys h hwf
  refine ⟨_, _, performSearch_eq RegExp xs q regex hq hwfx,
    performSearch_eq RegExp ys q regex hq hwf, ?_⟩
  have hf : (xs.filter (Li.nameMatches regex)).map Li.record
      = (ys.filter (Li.nameMatches regex)).map Li.record := by
    rw [filter_record, filter_record, h]
  have hl : (xs.filter (Li.nameMatches regex)).length
      = (ys.filter (Li.nameMatches regex)).length := by
    simpa using congrArg List.length hf
  rw [hl]
  split
  · rfl
  · exact hf

/-! ## The search filter: no match -/

/-- C7: when no name matches a well-formed query, `performSearch(list, q)` returns exactly one
entry, the no-results message, which is not a copy of any record of `list`; `paginate` on that
result, whatever controls the page showed before, leaves the message visible as the only item
of page 0 and leaves no pagination control in the page; so does `handleSearch(q)` on any page
whose original list is `list`. -/
theorem performSearch_no_match (RegExp : String → Option (String → Bool)) (list : List Li)
    (q : String) (regex : String → Bool) (hq : RegExp q = some regex)
    (hwf : ∀ li ∈ list, li.wellFormed = true)
    (hm : ∀ li ∈ list, li.nameMatches regex = false) :
    performSearch RegExp list q = .ok [noResultsMessage] ∧
    (∀ li ∈ list, li.record ≠ noResultsMessage.record) ∧
    (∀ (d : Document) (r : ListRef), d.children r = [noResultsMessage] →
      (paginate d r).children r = [{ noResultsMessage with display := "inherit" }] ∧
      (∀ li ∈ (paginate d r).children r, li.visible = true) ∧
      ShowsPage ((paginate d r).children r) 0 ∧
      (paginate d r).attached = false ∧
      (paginate d r).controls = []) ∧
    (∀ d : Document, d.studentList = list →
      ∃ d1, handleSearch RegExp d q = .ok d1 ∧
        d1.displayed = [{ noResultsMessage with display := "inherit" }] ∧
        d1.attached = false ∧
        d1.controls = []) := by
  have hsearch : performSearch RegExp list q = .ok [noResultsMessage] := by
    rw [performSearch_eq RegExp list q regex hq hwf]
    have : list.filter (Li.nameMatches regex) = [] := by
      rw [List.filter_eq_nil_iff]
      intro li hmem
      simp [hm li hmem]
    simp [this]
  refine ⟨hsearch, ?_, ?_, ?_⟩
  · intro li hmem heq
    obtain ⟨name, _, h3, _⟩ := (Li.wellFormed_iff li).1 (hwf li hmem)
    have := congrArg (fun l => l.h3) heq
    simp [Li.record, h3, noResultsMessage] at this
  · intro d r hd
    have hch : (paginate d r).children r = [{ noResultsMessage with display := "inherit" }] := by
      rw [paginate_children, hd]
      rfl
    have hatt : (paginate d r).attached = false := by
      rw [paginate_attached, hd]; rfl
    refine ⟨hch, ?_, ?_, hatt, ?_⟩
    · rw [hch]
      decide
    · rw [paginate_children]
      exact showPage_showsPage _ 0
    · simp [Document.controls, hatt]
  · intro d hd
    subst hd
    refine ⟨_, handleSearch_eq RegExp d q _ hsearch, rfl, rfl, rfl⟩

/-- C7 at the roster of 25 with the query `zzz`: the page shows three controls after load, and
after the search it shows the single no-results entry and no pagination control. -/
theorem performSearch_no_match_witness :
    (domContentLoaded roster).controls.length = 3 ∧
    performSearch literalRegExp roster "zzz" = .ok [noResultsMessage] ∧
    (∃ d, handleSearch literalRegExp (domContentLoaded roster) "zzz" = .ok d ∧
      d.displayed = [{ noResultsMessage with display := "inherit" }] ∧
      d.attached = false ∧ d.controls = []) :=
  ⟨by decide,
   (performSearch_no_match literalRegExp roster "zzz"
      (fun s => occursIn "zzz".toList s.toList) rfl (by decide) (by decide)).1,
   (performSearch_no_match literalRegExp (domContentLoaded roster).studentList "zzz"
      (fun s => occursIn "zzz".toList s.toList) rfl (by decide) (by decide)).2.2.2
      (domContentLoaded roster) rfl⟩

/-! ## Orchestration -/

/-- C8: in every state reached from load by searches and control activations, `handleSearch(q)`
for a well-formed `q` succeeds and yields the displayed list, visibilities and controls that
`handleSearch(q)` yields right after load: the search result over the original list as loaded,
shown at page 0, with fresh controls none of which is active; the records of the original list
are untouched and repeating the search changes nothing. -/
theorem handleSearch_from_load (RegExp : String → Option (String → Bool)) (students : List Li)
    (events : List Event) (q : String) (regex : String → Bool) (hq : RegExp q = some regex)
    (hwf : ∀ li ∈ students, li.wellFormed = true) :
    ∃ d1 d2 results,
      handleSearch RegExp (run RegExp (domContentLoaded students) events) q = .ok d1 ∧
      handleSearch RegExp (domContentLoaded students) q = .ok d2 ∧
      performSearch RegExp students q = .ok results ∧
      d1.displayed = d2.displayed ∧
      d1.controls = d2.controls ∧
      d1.displayed = showPage results 0 ∧
      ShowsPage d1.displayed 0 ∧
      (∀ link ∈ d1.controls, link.active = false) ∧
      d1.studentList.map Li.record = students.map Li.record ∧
      handleSearch RegExp d1 q = .ok d1 := by
  have hs : (run RegExp (domContentLoaded students) events).studentList.map Li.record
      = students.map Li.record := by
    rw [run_studentList_record, domContentLoaded_studentList_record]
  have h0 := domContentLoaded_studentList_record students
  obtain ⟨rs, r, hrs, hr, ers⟩ := performSearch_congr RegExp _ students q regex hq hs hwf
  obtain ⟨r0, r1, hr0, hr1, er0⟩ := performSearch_congr RegExp _ students q regex hq h0 hwf
  have e1 : r1 = r := by
    rw [hr] at hr1
    cases hr1
    rfl
  subst e1
  have hlen_s : rs.length = r1.length := by simpa using congrArg List.length ers
  have hlen_0 : r0.length = r1.length := by simpa using congrArg List.length er0
  refine ⟨_, _, r1, handleSearch_eq RegExp _ q rs hrs, handleSearch_eq RegExp _ q r0 hr0, hr,
    ?_, ?_, ?_, ?_, ?_, hs, ?_⟩
  · show showPage rs 0 = showPage r0 0
    rw [showPage_congr rs r1 0 ers, showPage_congr r0 r1 0 er0]
  · simp only [Document.controls, hlen_s, hlen_0]
  · show showPage rs 0 = showPage r1 0
    exact showPage_congr rs r1 0 ers
  · show ShowsPage (showPage rs 0) 0
    exact showPage_showsPage rs 0
  · intro link hmem
    simp only [Document.controls] at hmem
    split at hmem
    · exact activeElements_eq_zero _ (activeElements_fresh _) link hmem
    · cases hmem
  · exact handleSearch_eq RegExp _ q rs hrs

/-- C8 at the roster of 25: after a search for `Student1`, a click on the second control and a
malformed search, searching `Student2` shows what it shows right after load, the 7 matching
records with no pagination control; searching `Student2` after `Student1` alone does too. -/
theorem handleSearch_from_load_witness :
    (∃ d1 d2 results,
      handleSearch literalRegExp
        (run literalRegExp (domContentLoaded roster)
          [Event.search "Student1", Event.click 1 Target.a, Event.search "["]) "Student2"
        = .ok d1 ∧
      handleSearch literalRegExp (domContentLoaded roster) "Student2" = .ok d2 ∧
      performSearch literalRegExp roster "Student2" = .ok results ∧
      d1.displayed = d2.displayed ∧
      d1.controls = d2.controls ∧
      d1.displayed = showPage results 0 ∧
      ShowsPage d1.displayed 0 ∧
      (∀ link ∈ d1.controls, link.active = false) ∧
      d1.studentList.map Li.record = roster.map Li.record ∧
      handleSearch literalRegExp d1 "Student2" = .ok d1) ∧
    (∃ d, handleSearch literalRegExp
        (run literalRegExp (domContentLoaded roster) [Event.search "Student1"]) "Student2"
        = .ok d ∧
      d.displayed.map Li.h3 = [some "Student2", some "Student20", some "Student21",
        some "Student22", some "Student23", some "Student24", some "Student25"] ∧
      d.displayed.map Li.display = ["inherit", "inherit", "inherit", "inherit", "inherit",
        "inherit", "inherit"] ∧
      d.controls = []) :=
  ⟨handleSearch_from_load literalRegExp roster
      [Event.search "Student1", Event.click 1 Target.a, Event.search "["] "Student2"
      (fun s => occursIn "Student2".toList s.toList) rfl (by decide),
   ⟨_, rfl, by decide, by decide, by decide⟩⟩

end ListPagination
